import Mathlib

/-!
Shallow embedding of `src/contactbook.py` (class `ContactBook`).

The Python program keeps an in-memory `dict` mapping a contact name to a
`dict` with keys `phone`, `email`, `address`, loaded from / saved to a JSON
file.  We model the store as an association list (Python dicts preserve
insertion order; a fresh key is appended at the end), strings as Lean
`String`, Python `str.strip()` as `trimStr`, Python `str.lower()` as a
character-wise lowering `lowerStr`, and Python's substring test `a in b` as
`containsSub`.  The interactive `input()` calls become explicit parameters,
and the printed SUCCESS / ERROR messages become explicit result values.
Persistence is modelled by an abstract file state: `save` serializes the
current mapping, `load` reads it back; a malformed file is a
`json.JSONDecodeError` at parse time and an unreadable file is an OS error
(e.g. `PermissionError`) raised by `open`, which the `except` clause in
`load_contacts` does not catch.
-/

namespace ContactBook

/-- Python `str.lower()` applied character-wise (ASCII case folding,
matching `Char.toLower`). -/
def lowerStr (s : String) : String := ⟨s.data.map Char.toLower⟩

/-- Python `str.strip()`: drop whitespace from both ends. -/
def trimStr (s : String) : String :=
  ⟨((s.data.dropWhile Char.isWhitespace).reverse.dropWhile Char.isWhitespace).reverse⟩

/-- Python's `<=` on strings: lexicographic comparison by code point. -/
def lexLe : List Char → List Char → Bool
  | [], _ => true
  | _ :: _, [] => false
  | a :: xs, b :: ys => if a < b then true else if a = b then lexLe xs ys else false

/-- The name order used by `sorted(self.contacts.items())`: tuples compare
by first component first, and the stored names are distinct, so only the
case-sensitive code-point order of the names matters. -/
def nameLe {β : Type} (a b : String × β) : Prop := lexLe a.1.data b.1.data = true

instance {β : Type} : DecidableRel (@nameLe β) := fun a b => by
  unfold nameLe; infer_instance

/-- `startsWith big pat = true` iff the list `big` starts with `pat`. -/
def startsWith : List Char → List Char → Bool
  | _, [] => true
  | [], _ :: _ => false
  | a :: xs, b :: ys => a == b && startsWith xs ys

/-- Python's substring test `pat in big` on the underlying character lists. -/
def containsSub : List Char → List Char → Bool
  | big, pat =>
    startsWith big pat ||
      match big with
      | [] => false
      | _ :: t => containsSub t pat

/-- Python's `pat in s` for strings. -/
def strContains (s pat : String) : Bool := containsSub s.data pat.data

/-- The value stored under a name: the inner Python dict
`{"phone": ..., "email": ..., "address": ...}`. -/
structure Contact where
  phone : String
  email : String
  address : String
deriving DecidableEq, Repr

/-- `self.contacts : Dict[str, Dict[str, str]]`, as an association list in
insertion order. -/
abbrev Store := List (String × Contact)

/-- `[k.lower() for k in self.contacts.keys()]` (line 34). -/
def lowerKeys (s : Store) : List String := s.map (fun p => lowerStr p.1)

/-- Python dict assignment `self.contacts[name] = v`: overwrite in place if
the exact key is present, otherwise append. -/
def dictInsert (s : Store) (k : String) (v : Contact) : Store :=
  if s.any (fun p => p.1 == k) then
    s.map (fun p => if p.1 == k then (k, v) else p)
  else s ++ [(k, v)]

/-- The lookup loop of `update_contact` / `delete_contact` (lines 111-115,
154-158): first stored key equal to the query under case-insensitive
comparison, together with its record; the spec calls it `findByName`. -/
def findByName (s : Store) (query : String) : Option (String × Contact) :=
  s.find? (fun p => lowerStr p.1 == lowerStr query)

/-- Outcome of `add_contact` (lines 25-54): which message is printed. -/
inductive AddResult
  | ok (name : String)
  | emptyName
  | duplicate (name : String)
  | emptyPhone
deriving DecidableEq, Repr

/-- The ERROR branches of `add_contact` (all validation errors). -/
def AddResult.isError : AddResult → Bool
  | .ok _ => false
  | _ => true

structure AddOutcome where
  result : AddResult
  store : Store
  saved : Bool
deriving DecidableEq, Repr

/-- `add_contact` (lines 25-54) with the four `input()` values as
parameters; `saved = true` iff `save_contacts` is reached. -/
def addContact (s : Store) (nameInput phoneInput emailInput addressInput : String) :
    AddOutcome :=
  let name := trimStr nameInput
  if name = "" then ⟨.emptyName, s, false⟩
  else if (lowerKeys s).contains (lowerStr name) then ⟨.duplicate name, s, false⟩
  else
    let phone := trimStr phoneInput
    let email := trimStr emailInput
    let address := trimStr addressInput
    if phone = "" then ⟨.emptyPhone, s, false⟩
    else ⟨.ok name, dictInsert s name ⟨phone, email, address⟩, true⟩

/-- `sorted(self.contacts.items())` (line 66): Python sorts the
name/record pairs lexicographically, which on distinct names is the
case-sensitive code-point order of the names. -/
def sortedContacts (s : Store) : Store :=
  s.insertionSort nameLe

/-- Outcome of `view_contacts` (lines 56-69): either the "No contacts
found!" message, or the sorted listing plus the printed total. -/
inductive ViewResult
  | noContacts
  | listing (entries : Store) (total : Nat)
deriving DecidableEq, Repr

/-- `view_contacts` (lines 56-69). -/
def viewContacts (s : Store) : ViewResult :=
  if s.isEmpty then .noContacts
  else .listing (sortedContacts s) s.length

/-- The match predicate of `search_contact` (lines 86-88); `query` is
already stripped and lowered. -/
def matchesQuery (query : String) (p : String × Contact) : Bool :=
  strContains (lowerStr p.1) query ||
    strContains p.2.phone query ||
    strContains (lowerStr p.2.email) query

/-- Outcome of `search_contact` (lines 71-99). -/
inductive SearchResult
  | noContacts
  | emptyQuery
  | results (found : Store)
deriving DecidableEq, Repr

/-- `search_contact` (lines 71-99) with the `input()` value as a
parameter. -/
def searchContact (s : Store) (queryInput : String) : SearchResult :=
  if s.isEmpty then .noContacts
  else
    let query := lowerStr (trimStr queryInput)
    if query = "" then .emptyQuery
    else .results (s.filter (matchesQuery query))

/-- Outcome of `update_contact` (lines 101-142). -/
inductive UpdateResult
  | noContacts
  | notFound (name : String)
  | updated (name : String)
deriving DecidableEq, Repr

structure UpdateOutcome where
  result : UpdateResult
  store : Store
  saved : Bool
deriving DecidableEq, Repr

/-- `update_contact` (lines 101-142) with the four `input()` values as
parameters.  The found record is mutated in place: each field is replaced
only when the corresponding stripped input is non-empty. -/
def updateContact (s : Store) (nameInput newPhone newEmail newAddress : String) :
    UpdateOutcome :=
  if s.isEmpty then ⟨.noContacts, s, false⟩
  else
    let name := trimStr nameInput
    match findByName s name with
    | none => ⟨.notFound name, s, false⟩
    | some (actualName, current) =>
      let np := trimStr newPhone
      let ne := trimStr newEmail
      let na := trimStr newAddress
      let newContact : Contact :=
        ⟨if np = "" then current.phone else np,
         if ne = "" then current.email else ne,
         if na = "" then current.address else na⟩
      ⟨.updated actualName,
       s.map (fun p => if p.1 == actualName then (actualName, newContact) else p),
       true⟩

/-- Outcome of `delete_contact` (lines 144-179). -/
inductive DeleteResult
  | noContacts
  | notFound (name : String)
  | deleted (name : String)
  | cancelled (name : String)
deriving DecidableEq, Repr

structure DeleteOutcome where
  result : DeleteResult
  store : Store
  saved : Bool
deriving DecidableEq, Repr

/-- `delete_contact` (lines 144-179) with the two `input()` values
(name and confirmation token) as parameters.  `del self.contacts[...]`
removes exactly the entry with the resolved key. -/
def deleteContact (s : Store) (nameInput confirmInput : String) : DeleteOutcome :=
  if s.isEmpty then ⟨.noContacts, s, false⟩
  else
    let name := trimStr nameInput
    match findByName s name with
    | none => ⟨.notFound name, s, false⟩
    | some (actualName, _) =>
      let confirm := lowerStr (trimStr confirmInput)
      if confirm = "y" ∨ confirm = "yes" then
        ⟨.deleted actualName, s.eraseP (fun p => p.1 == actualName), true⟩
      else ⟨.cancelled actualName, s, false⟩

/-- State of the persistence file `contacts.json` as seen by
`load_contacts` / `save_contacts`: absent, present but unreadable (the
`open` call raises an OS error such as `PermissionError`), present but not
valid JSON (`json.load` raises `json.JSONDecodeError`), or a well-formed
serialization of a mapping. -/
inductive FileState
  | missing
  | unreadable
  | malformed
  | wellFormed (data : Store)
deriving DecidableEq, Repr

/-- The file together with the in-memory store. -/
structure AppState where
  file : FileState
  contacts : Store
deriving DecidableEq, Repr

/-- An exception escaping `load_contacts`: the `except` clause (line 17)
catches only `json.JSONDecodeError` and `FileNotFoundError`, so an OS
error from `open` propagates. -/
inductive LoadError
  | osError
deriving DecidableEq, Repr

/-- `load_contacts` (lines 11-18): skip when the file does not exist,
reset the store to empty when parsing fails, replace the store with the
file contents on success, and let an unreadable file raise. -/
def loadContacts (st : AppState) : Except LoadError AppState :=
  match st.file with
  | .missing => .ok st
  | .unreadable => .error .osError
  | .malformed => .ok { st with contacts := [] }
  | .wellFormed d => .ok { st with contacts := d }

/-- `save_contacts` (lines 20-23): overwrite the file with the current
mapping. -/
def saveContacts (st : AppState) : AppState :=
  { st with file := .wellFormed st.contacts }

/-- `__init__` (lines 6-9) on a given file state: start empty, then load. -/
def initBook (f : FileState) : Except LoadError AppState :=
  loadContacts ⟨f, []⟩

/-- The uniqueness invariant of §3 of the spec: no two stored keys are
equal under case-insensitive comparison. -/
def CIUnique (s : Store) : Prop := (lowerKeys s).Nodup

instance (s : Store) : Decidable (CIUnique s) := by
  unfold CIUnique; infer_instance

/-! ### Auxiliary lemmas -/

theorem lowerStr_eq_empty_iff (s : String) : lowerStr s = "" ↔ s = "" := by
  constructor
  · intro h
    have hd : s.data.map Char.toLower = [] := by
      have := String.ext_iff.mp h
      simpa [lowerStr] using this
    have : s.data = [] := List.map_eq_nil_iff.mp hd
    exact String.ext_iff.mpr (by simp [this])
  · intro h; subst h; rfl

theorem startsWith_iff (big pat : List Char) :
    startsWith big pat = true ↔ ∃ t, big = pat ++ t := by
  induction pat generalizing big with
  | nil => simp [startsWith]
  | cons b ys ih =>
    cases big with
    | nil => simp [startsWith]
    | cons a xs =>
      simp only [startsWith, Bool.and_eq_true, beq_iff_eq, ih]
      constructor
      · rintro ⟨rfl, t, rfl⟩; exact ⟨t, rfl⟩
      · rintro ⟨t, h⟩
        injection h with h1 h2
        exact ⟨h1, t, h2⟩

theorem containsSub_iff (big pat : List Char) :
    containsSub big pat = true ↔ ∃ u v, big = u ++ pat ++ v := by
  induction big with
  | nil =>
    simp only [containsSub, Bool.or_eq_true, startsWith_iff]
    constructor
    · rintro (⟨t, h⟩ | h)
      · exact ⟨[], t, by simpa using h⟩
      · simp at h
    · rintro ⟨u, v, h⟩
      exact Or.inl ⟨v, by rw [List.nil_eq] at h; simp_all⟩
  | cons a t ih =>
    rw [containsSub]
    simp only [Bool.or_eq_true, startsWith_iff, ih]
    constructor
    · rintro (⟨w, h⟩ | ⟨u, v, h⟩)
      · exact ⟨[], w, by simpa using h⟩
      · exact ⟨a :: u, v, by simp [h]⟩
    · rintro ⟨u, v, h⟩
      cases u with
      | nil => exact Or.inl ⟨v, by simpa using h⟩
      | cons x u' =>
        injection h with h1 h2
        exact Or.inr ⟨u', v, h2⟩

theorem strContains_iff (s pat : String) :
    strContains s pat = true ↔ ∃ u v, s.data = u ++ pat.data ++ v := by
  unfold strContains; exact containsSub_iff _ _

theorem lexLe_total (a b : List Char) : lexLe a b = true ∨ lexLe b a = true := by
  induction a generalizing b with
  | nil => left; rfl
  | cons x xs ih =>
    cases b with
    | nil => right; rfl
    | cons y ys =>
      rcases lt_trichotomy x y with h | h | h
      · left; simp [lexLe, h]
      · subst h
        rcases ih ys with h' | h'
        · left; simp [lexLe, h']
        · right; simp [lexLe, h']
      · right; simp [lexLe, h]

theorem lexLe_trans (a b c : List Char) (hab : lexLe a b = true)
    (hbc : lexLe b c = true) : lexLe a c = true := by
  induction a generalizing b c with
  | nil => rfl
  | cons x xs ih =>
    cases b with
    | nil => simp [lexLe] at hab
    | cons y ys =>
      cases c with
      | nil => simp [lexLe] at hbc
      | cons z zs =>
        simp only [lexLe] at hab hbc ⊢
        by_cases hxy : x < y
        · by_cases hyz : y < z
          · simp [lt_trans hxy hyz]
          · by_cases hyz' : y = z
            · simp [hyz' ▸ hxy]
            · simp [hyz, hyz'] at hbc
        · by_cases hxy' : x = y
          · subst hxy'
            by_cases hyz : x < z
            · simp [hyz]
            · by_cases hyz' : x = z
              · subst hyz'
                simp only [lt_self_iff_false, if_false, if_pos rfl] at hab hbc ⊢
                exact ih ys zs hab hbc
              · simp [hyz, hyz'] at hbc
          · simp [hxy, hxy'] at hab

instance {β : Type} : IsTotal (String × β) nameLe :=
  ⟨fun a b => lexLe_total a.1.data b.1.data⟩

instance {β : Type} : IsTrans (String × β) nameLe :=
  ⟨fun a b c => lexLe_trans a.1.data b.1.data c.1.data⟩

theorem lowerKeys_contains_iff (s : Store) (x : String) :
    (lowerKeys s).contains x = true ↔ ∃ p ∈ s, lowerStr p.1 = x := by
  rw [List.elem_iff]
  unfold lowerKeys
  simp [List.mem_map]

theorem ci_entry_unique {s : Store} (hu : CIUnique s) {k : String} {c : Contact}
    (hm : (k, c) ∈ s) {q : String × Contact} (hq : q ∈ s)
    (h : lowerStr q.1 = lowerStr k) : q = (k, c) :=
  List.inj_on_of_nodup_map hu hq hm h

theorem setEntry_id (t : Store) (k : String) (c : Contact)
    (h : ∀ q ∈ t, q.1 = k → q = (k, c)) :
    t.map (fun q => if q.1 == k then (k, c) else q) = t := by
  induction t with
  | nil => rfl
  | cons x xs ih =>
    have hxs := ih (fun q hq => h q (List.mem_cons_of_mem x hq))
    have hhead : (if (x.1 == k) = true then (k, c) else x) = x := by
      by_cases hx : x.1 = k
      · rw [if_pos (by simpa using hx)]
        exact (h x (List.mem_cons_self x xs) hx).symm
      · exact if_neg (by simpa using hx)
    simp only [List.map_cons, hxs, hhead]

/-! Unfolding equations: each operation expanded through its `let`
bindings, checked definitionally against the embedding. -/

theorem addContact_eq (s : Store) (n p e a : String) :
    addContact s n p e a =
      if trimStr n = "" then ⟨.emptyName, s, false⟩
      else if (lowerKeys s).contains (lowerStr (trimStr n)) then
        ⟨.duplicate (trimStr n), s, false⟩
      else if trimStr p = "" then ⟨.emptyPhone, s, false⟩
      else ⟨.ok (trimStr n),
        dictInsert s (trimStr n) ⟨trimStr p, trimStr e, trimStr a⟩, true⟩ := rfl

theorem searchContact_eq (s : Store) (q : String) :
    searchContact s q =
      if s.isEmpty then .noContacts
      else if lowerStr (trimStr q) = "" then .emptyQuery
      else .results (s.filter (matchesQuery (lowerStr (trimStr q)))) := rfl

theorem updateContact_eq (s : Store) (n p e a : String) :
    updateContact s n p e a =
      if s.isEmpty then ⟨.noContacts, s, false⟩
      else
        match findByName s (trimStr n) with
        | none => ⟨.notFound (trimStr n), s, false⟩
        | some (k, c) =>
          ⟨.updated k,
           s.map (fun q => if q.1 == k then
             (k, ⟨if trimStr p = "" then c.phone else trimStr p,
                  if trimStr e = "" then c.email else trimStr e,
                  if trimStr a = "" then c.address else trimStr a⟩) else q),
           true⟩ := rfl

theorem deleteContact_eq (s : Store) (n conf : String) :
    deleteContact s n conf =
      if s.isEmpty then ⟨.noContacts, s, false⟩
      else
        match findByName s (trimStr n) with
        | none => ⟨.notFound (trimStr n), s, false⟩
        | some (k, _) =>
          if lowerStr (trimStr conf) = "y" ∨ lowerStr (trimStr conf) = "yes" then
            ⟨.deleted k, s.eraseP (fun p => p.1 == k), true⟩
          else ⟨.cancelled k, s, false⟩ := rfl

/-! ### Claim theorems -/

/-- C1: `add` fails (printing a validation error) exactly when the trimmed
name is empty, a case-insensitively equal name is already stored, or the
trimmed phone is empty; and in every failing case the store is returned
unchanged and `save_contacts` is not called. -/
theorem add_validation_spec (s : Store) (n p e a : String) :
    ((addContact s n p e a).result.isError = true ↔
      (trimStr n = "" ∨ (∃ q ∈ s, lowerStr q.1 = lowerStr (trimStr n)) ∨
        trimStr p = "")) ∧
    ((addContact s n p e a).result.isError = true →
      (addContact s n p e a).store = s ∧ (addContact s n p e a).saved = false) := by
  rw [addContact_eq]
  split_ifs with h1 h2 h3
  · exact ⟨by simp [AddResult.isError, h1], fun _ => ⟨rfl, rfl⟩⟩
  · refine ⟨?_, fun _ => ⟨rfl, rfl⟩⟩
    simp only [AddResult.isError, true_iff]
    exact Or.inr (Or.inl ((lowerKeys_contains_iff s _).mp h2))
  · refine ⟨?_, fun _ => ⟨rfl, rfl⟩⟩
    simp only [AddResult.isError, true_iff]
    exact Or.inr (Or.inr h3)
  · constructor
    · simp only [AddResult.isError]
      constructor
      · intro h; simp at h
      · rintro (h | h | h)
        · exact absurd h h1
        · exact absurd ((lowerKeys_contains_iff s _).mpr h) h2
        · exact absurd h h3
    · intro h; simp [AddResult.isError] at h

/-- Closed instance of `add_validation_spec`: adding with a whitespace-only
name to an empty store fails and changes nothing. -/
theorem add_validation_spec_witness :
    (addContact [] " " "123" "" "").store = [] ∧
      (addContact [] " " "123" "" "").saved = false :=
  (add_validation_spec [] " " "123" "" "").2 (by decide)

/-- C2: saving a store and loading the resulting file into a fresh store
succeeds and reproduces the original mapping exactly: the loaded store is
equal to the saved one, so it has the same name keys bound to the same
phone/email/address records. -/
theorem save_load_roundtrip (f : FileState) (s : Store) :
    ∃ st' : AppState,
      loadContacts ⟨(saveContacts ⟨f, s⟩).file, []⟩ = .ok st' ∧
        st'.contacts = s ∧ ∀ kc : String × Contact, kc ∈ st'.contacts ↔ kc ∈ s :=
  ⟨⟨.wellFormed s, s⟩, rfl, rfl, fun _ => Iff.rfl⟩

/-- C3 counterexample: on an unreadable (but existing) persistence file,
`load_contacts` does not silently produce an empty store — the `open` call
raises an OS error that the `except (json.JSONDecodeError,
FileNotFoundError)` clause does not catch, so the error surfaces. -/
theorem load_unreadable_cex :
    ¬ ∃ st' : AppState, loadContacts ⟨.unreadable, []⟩ = .ok st' := by
  rintro ⟨st', h⟩
  simp [loadContacts] at h

/-- C3 amended: `load` leaves a fresh store empty when the file is missing,
silently resets the store to empty on a malformed (JSON-undecodable) file,
replaces the store's contents on a well-formed file, and surfaces an
uncaught OS error on an unreadable file. -/
theorem load_policy_spec (s0 d : Store) :
    loadContacts ⟨.missing, []⟩ = .ok ⟨.missing, []⟩ ∧
    loadContacts ⟨.malformed, s0⟩ = .ok ⟨.malformed, []⟩ ∧
    loadContacts ⟨.wellFormed d, s0⟩ = .ok ⟨.wellFormed d, d⟩ ∧
    loadContacts ⟨.unreadable, s0⟩ = .error .osError :=
  ⟨rfl, rfl, rfl, rfl⟩

/-- C4 counterexample: for the store holding exactly "Bob" and "alice"
(added in that order), the sorted view lists "Bob" first, not "alice"
first — in case-sensitive code-point order the uppercase `B` (66) precedes
the lowercase `a` (97), so the claim's expected order is wrong. -/
theorem view_order_cex :
    viewContacts
        [("Bob", ⟨"111", "bob@x.com", "B St"⟩),
         ("alice", ⟨"222", "alice@x.com", "A St"⟩)] =
      .listing
        [("Bob", ⟨"111", "bob@x.com", "B St"⟩),
         ("alice", ⟨"222", "alice@x.com", "A St"⟩)] 2 ∧
    (sortedContacts
        [("Bob", ⟨"111", "bob@x.com", "B St"⟩),
         ("alice", ⟨"222", "alice@x.com", "A St"⟩)]).map Prod.fst ≠
      ["alice", "Bob"] := by
  exact ⟨by decide, by decide⟩

/-- C4 amended: on a non-empty store, `view_contacts` lists all contacts
sorted by name ascending in case-sensitive code-point order together with
the total count; in particular for the store holding exactly "Bob" and
"alice" it yields "Bob" before "alice", because uppercase letters precede
lowercase ones. -/
theorem view_spec :
    (∀ s : Store, s ≠ [] →
      viewContacts s = .listing (sortedContacts s) s.length ∧
        (sortedContacts s).Sorted nameLe ∧ (sortedContacts s).Perm s) ∧
    (sortedContacts
        [("Bob", ⟨"111", "bob@x.com", "B St"⟩),
         ("alice", ⟨"222", "alice@x.com", "A St"⟩)]).map Prod.fst =
      ["Bob", "alice"] := by
  constructor
  · intro s hne
    refine ⟨?_, List.sorted_insertionSort nameLe s, List.perm_insertionSort nameLe s⟩
    rw [viewContacts, if_neg (by simp [List.isEmpty_iff, hne])]
  · decide

/-- Closed instance of `view_spec` on a one-element store. -/
theorem view_spec_witness :
    viewContacts [("A", ⟨"1", "", ""⟩)] =
      .listing (sortedContacts [("A", ⟨"1", "", ""⟩)]) 1 :=
  (view_spec.1 [("A", ⟨"1", "", ""⟩)] (by decide)).1

theorem matchesQuery_iff (query : String) (p : String × Contact) :
    matchesQuery query p = true ↔
      ((∃ u v, (lowerStr p.1).data = u ++ query.data ++ v) ∨
       (∃ u v, p.2.phone.data = u ++ query.data ++ v) ∨
       (∃ u v, (lowerStr p.2.email).data = u ++ query.data ++ v)) := by
  unfold matchesQuery
  simp only [Bool.or_eq_true, strContains_iff, or_assoc]

/-- C5: on a non-empty store, a query that is empty after stripping yields
the empty-query validation error, and a non-empty query returns exactly the
contacts whose lowercased name, raw phone, or lowercased email contains the
(stripped and lowercased) query as a substring. -/
theorem search_spec (s : Store) (hne : s ≠ []) (q : String) :
    (trimStr q = "" → searchContact s q = .emptyQuery) ∧
    (trimStr q ≠ "" →
      ∃ l, searchContact s q = .results l ∧
        ∀ p : String × Contact, p ∈ l ↔ p ∈ s ∧
          ((∃ u v, (lowerStr p.1).data = u ++ (lowerStr (trimStr q)).data ++ v) ∨
           (∃ u v, p.2.phone.data = u ++ (lowerStr (trimStr q)).data ++ v) ∨
           (∃ u v, (lowerStr p.2.email).data = u ++ (lowerStr (trimStr q)).data ++ v))) := by
  have hempty : ¬ s.isEmpty = true := by simp [List.isEmpty_iff, hne]
  constructor
  · intro h
    rw [searchContact_eq, if_neg hempty, if_pos (by rw [h]; rfl)]
  · intro h
    rw [searchContact_eq, if_neg hempty,
      if_neg (fun hc => h ((lowerStr_eq_empty_iff _).mp hc))]
    refine ⟨_, rfl, fun p => ?_⟩
    rw [List.mem_filter, matchesQuery_iff]

/-- Closed instance of `search_spec`: a whitespace-only query on a
non-empty store yields the empty-query validation error. -/
theorem search_spec_witness :
    searchContact [("Alice", ⟨"123", "a@x.com", "1 Main St"⟩)] " " = .emptyQuery :=
  (search_spec [("Alice", ⟨"123", "a@x.com", "1 Main St"⟩)] (by decide) " ").1 (by decide)

theorem findByName_eraseP : ∀ (s : Store), CIUnique s → ∀ (q k : String) (c : Contact),
    findByName s q = some (k, c) →
    findByName (s.eraseP (fun p => p.1 == k)) q = none := by
  intro s
  induction s with
  | nil => intro _ q k c hfind; simp [findByName] at hfind
  | cons x t ih =>
    intro hu q k c hfind
    have hu' : (lowerStr x.1) ∉ lowerKeys t ∧ (lowerKeys t).Nodup := by
      simpa [CIUnique, lowerKeys] using hu
    by_cases hx : (lowerStr x.1 == lowerStr q) = true
    · rw [findByName,
        List.find?_cons_of_pos (p := fun r => lowerStr r.1 == lowerStr q) t hx]
        at hfind
      injection hfind with hfind
      subst hfind
      rw [List.eraseP_cons_of_pos (by simp)]
      rw [findByName, List.find?_eq_none]
      intro p hp hpq
      apply hu'.1
      rw [beq_iff_eq] at hx hpq
      rw [hx, ← hpq]
      exact List.mem_map_of_mem _ hp
    · rw [findByName,
        List.find?_cons_of_neg (p := fun r => lowerStr r.1 == lowerStr q) t hx]
        at hfind
      have hq : lowerStr k = lowerStr q := by
        simpa using List.find?_some hfind
      have hxk : ¬ (x.1 == k) = true := by
        intro hk
        rw [beq_iff_eq] at hk
        exact hx (by rw [hk, hq, beq_iff_eq])
      rw [List.eraseP_cons_of_neg (p := fun r : String × Contact => r.1 == k) hxk,
        findByName,
        List.find?_cons_of_neg
          (p := fun r : String × Contact => lowerStr r.1 == lowerStr q) _ hx]
      exact ih hu'.2 q k c hfind

theorem CIUnique.keysNodup {s : Store} (hu : CIUnique s) : (s.map Prod.fst).Nodup := by
  apply List.Nodup.of_map lowerStr
  rw [List.map_map]
  exact hu

/-- C6: `update` resolves the name case-insensitively; on a non-empty store
it fails with the not-found error when no stored key matches, and on a
match it saves and replaces the matched entry's record field-wise, keeping
each field whose new value strips to empty; consequently all-empty new
values leave the store unchanged (given the case-insensitive uniqueness
invariant), and supplying only a new email changes only the email. -/
theorem update_spec :
    (∀ (s : Store) (n p e a : String), s ≠ [] →
        findByName s (trimStr n) = none →
        updateContact s n p e a = ⟨.notFound (trimStr n), s, false⟩) ∧
    (∀ (s : Store) (n p e a : String) (k : String) (c : Contact), s ≠ [] →
        findByName s (trimStr n) = some (k, c) →
        (updateContact s n p e a).result = .updated k ∧
        (updateContact s n p e a).saved = true ∧
        (updateContact s n p e a).store = s.map (fun q => if q.1 == k then
          (k, ⟨if trimStr p = "" then c.phone else trimStr p,
               if trimStr e = "" then c.email else trimStr e,
               if trimStr a = "" then c.address else trimStr a⟩) else q)) ∧
    (∀ (s : Store) (n p e a : String) (k : String) (c : Contact),
        CIUnique s → s ≠ [] → findByName s (trimStr n) = some (k, c) →
        trimStr p = "" → trimStr e = "" → trimStr a = "" →
        (updateContact s n p e a).store = s) ∧
    (∀ (s : Store) (n p e a : String) (k : String) (c : Contact), s ≠ [] →
        findByName s (trimStr n) = some (k, c) →
        trimStr p = "" → trimStr a = "" → trimStr e ≠ "" →
        (updateContact s n p e a).store = s.map
          (fun q => if q.1 == k then (k, ⟨c.phone, trimStr e, c.address⟩) else q)) := by
  have key : ∀ (s : Store) (n p e a : String) (k : String) (c : Contact), s ≠ [] →
      findByName s (trimStr n) = some (k, c) →
      updateContact s n p e a =
        ⟨.updated k,
         s.map (fun q => if q.1 == k then
           (k, ⟨if trimStr p = "" then c.phone else trimStr p,
                if trimStr e = "" then c.email else trimStr e,
                if trimStr a = "" then c.address else trimStr a⟩) else q),
         true⟩ := by
    intro s n p e a k c hne hfind
    rw [updateContact_eq, if_neg (by simp [List.isEmpty_iff, hne]), hfind]
  refine ⟨?_, ?_, ?_, ?_⟩
  · intro s n p e a hne hfind
    rw [updateContact_eq, if_neg (by simp [List.isEmpty_iff, hne]), hfind]
  · intro s n p e a k c hne hfind
    rw [key s n p e a k c hne hfind]
    exact ⟨rfl, rfl, rfl⟩
  · intro s n p e a k c hu hne hfind hp he ha
    rw [key s n p e a k c hne hfind]
    simp only [hp, he, ha, if_pos rfl]
    have hkc : (k, c) ∈ s := List.mem_of_find?_eq_some hfind
    exact setEntry_id s k c (fun q hq hqk =>
      ci_entry_unique hu hkc hq (by rw [hqk]))
  · intro s n p e a k c hne hfind hp ha he
    rw [key s n p e a k c hne hfind]
    simp only [hp, ha, if_pos rfl, if_neg he]
    rfl

/-- Closed instance of `update_spec`: updating a missing name on a
non-empty store reports not-found and changes nothing. -/
theorem update_spec_witness :
    updateContact [("Alice", ⟨"123", "a@x.com", "1 Main St"⟩)] "Bob" "9" "" "" =
      ⟨.notFound "Bob", [("Alice", ⟨"123", "a@x.com", "1 Main St"⟩)], false⟩ :=
  update_spec.1 [("Alice", ⟨"123", "a@x.com", "1 Main St"⟩)] "Bob" "9" "" ""
    (by decide) (by decide)

/-- C7: `delete` resolves the name case-insensitively; on a non-empty store
it fails with the not-found error when no stored key matches; on a match it
removes the entry and saves exactly when the stripped, lowercased
confirmation token is "y" or "yes" — and afterwards (given the
case-insensitive uniqueness invariant) looking the name up again finds
nothing — while any other token leaves the store unchanged, saves nothing,
and reports the distinct cancelled outcome. -/
theorem delete_spec :
    (∀ (s : Store) (n conf : String), s ≠ [] →
        findByName s (trimStr n) = none →
        deleteContact s n conf = ⟨.notFound (trimStr n), s, false⟩) ∧
    (∀ (s : Store) (n conf : String) (k : String) (c : Contact), s ≠ [] →
        findByName s (trimStr n) = some (k, c) →
        (lowerStr (trimStr conf) = "y" ∨ lowerStr (trimStr conf) = "yes") →
        deleteContact s n conf =
          ⟨.deleted k, s.eraseP (fun p => p.1 == k), true⟩) ∧
    (∀ (s : Store) (n conf : String) (k : String) (c : Contact),
        CIUnique s → s ≠ [] → findByName s (trimStr n) = some (k, c) →
        (lowerStr (trimStr conf) = "y" ∨ lowerStr (trimStr conf) = "yes") →
        findByName (deleteContact s n conf).store (trimStr n) = none) ∧
    (∀ (s : Store) (n conf : String) (k : String) (c : Contact), s ≠ [] →
        findByName s (trimStr n) = some (k, c) →
        ¬(lowerStr (trimStr conf) = "y" ∨ lowerStr (trimStr conf) = "yes") →
        deleteContact s n conf = ⟨.cancelled k, s, false⟩) := by
  have key : ∀ (s : Store) (n conf : String) (k : String) (c : Contact), s ≠ [] →
      findByName s (trimStr n) = some (k, c) →
      (lowerStr (trimStr conf) = "y" ∨ lowerStr (trimStr conf) = "yes") →
      deleteContact s n conf = ⟨.deleted k, s.eraseP (fun p => p.1 == k), true⟩ := by
    intro s n conf k c hne hfind hconf
    rw [deleteContact_eq, if_neg (by simp [List.isEmpty_iff, hne]), hfind]
    dsimp only
    rw [if_pos hconf]
  refine ⟨?_, key, ?_, ?_⟩
  · intro s n conf hne hfind
    rw [deleteContact_eq, if_neg (by simp [List.isEmpty_iff, hne]), hfind]
  · intro s n conf k c hu hne hfind hconf
    rw [key s n conf k c hne hfind hconf]
    exact findByName_eraseP s hu (trimStr n) k c hfind
  · intro s n conf k c hne hfind hconf
    rw [deleteContact_eq, if_neg (by simp [List.isEmpty_iff, hne]), hfind]
    dsimp only
    rw [if_neg hconf]

/-- Closed instance of `delete_spec`: deleting "ALICE" with confirmation
"y" removes the contact stored as "Alice" and the name no longer
resolves. -/
theorem delete_spec_witness :
    deleteContact [("Alice", ⟨"123", "a@x.com", "1 Main St"⟩)] "ALICE" "y" =
      ⟨.deleted "Alice", [], true⟩ ∧
    findByName
      (deleteContact [("Alice", ⟨"123", "a@x.com", "1 Main St"⟩)] "ALICE" "y").store
      (trimStr "ALICE") = none :=
  ⟨delete_spec.2.1 [("Alice", ⟨"123", "a@x.com", "1 Main St"⟩)] "ALICE" "y"
      "Alice" ⟨"123", "a@x.com", "1 Main St"⟩ (by decide) (by decide)
      (Or.inl (by decide)),
   delete_spec.2.2.1 [("Alice", ⟨"123", "a@x.com", "1 Main St"⟩)] "ALICE" "y"
      "Alice" ⟨"123", "a@x.com", "1 Main St"⟩ (by decide) (by decide) (by decide)
      (Or.inl (by decide))⟩

/-- C8: after a successful `add`, the contact is stored under the exact
(trimmed) casing of the supplied name at the end of the mapping, and
`findByName` with any casing of that name returns exactly that contact;
moreover exactly one stored entry matches the lookup case-insensitively. -/
theorem add_then_find (s : Store) (n p e a q : String)
    (h1 : trimStr n ≠ "")
    (h2 : (lowerKeys s).contains (lowerStr (trimStr n)) = false)
    (h3 : trimStr p ≠ "")
    (hq : lowerStr q = lowerStr (trimStr n)) :
    (addContact s n p e a).result = .ok (trimStr n) ∧
    (addContact s n p e a).store =
      s ++ [(trimStr n, ⟨trimStr p, trimStr e, trimStr a⟩)] ∧
    findByName (addContact s n p e a).store q =
      some (trimStr n, ⟨trimStr p, trimStr e, trimStr a⟩) ∧
    ((addContact s n p e a).store.countP
      (fun p0 => lowerStr p0.1 == lowerStr q)) = 1 := by
  have h2' : ¬ (lowerKeys s).contains (lowerStr (trimStr n)) = true := by
    rw [h2]; exact Bool.false_ne_true
  have hnomatch : ∀ p0 ∈ s, ¬ (lowerStr p0.1 == lowerStr q) = true := by
    intro p0 hp0 hbeq
    rw [beq_iff_eq, hq] at hbeq
    exact h2' ((lowerKeys_contains_iff s _).mpr ⟨p0, hp0, hbeq⟩)
  have hstore : (addContact s n p e a).store =
      s ++ [(trimStr n, ⟨trimStr p, trimStr e, trimStr a⟩)] := by
    rw [addContact_eq, if_neg h1, if_neg h2', if_neg h3]
    rw [dictInsert, if_neg]
    intro hany
    rcases List.any_eq_true.mp hany with ⟨p0, hp0, hp0k⟩
    rw [beq_iff_eq] at hp0k
    exact h2' ((lowerKeys_contains_iff s _).mpr ⟨p0, hp0, by rw [hp0k]⟩)
  have hres : (addContact s n p e a).result = .ok (trimStr n) := by
    rw [addContact_eq, if_neg h1, if_neg h2', if_neg h3]
  refine ⟨hres, hstore, ?_, ?_⟩
  · rw [hstore, findByName, List.find?_append, List.find?_eq_none.mpr hnomatch,
      Option.none_or]
    simp [hq]
  · rw [hstore, List.countP_append, List.countP_eq_zero.mpr hnomatch]
    simp [hq]

/-- Closed instance of `add_then_find`: after adding "Alice", looking up
"ALICE" returns the stored contact. -/
theorem add_then_find_witness :
    findByName (addContact [] "Alice" "123" "a@x.com" "1 Main St").store "ALICE" =
      some ("Alice", ⟨"123", "a@x.com", "1 Main St"⟩) :=
  (add_then_find [] "Alice" "123" "a@x.com" "1 Main St" "ALICE"
    (by decide) (by decide) (by decide) (by decide)).2.2.1

theorem lowerKeys_setEntry (s : Store) (k : String) (v : Contact) :
    lowerKeys (s.map (fun q => if q.1 == k then (k, v) else q)) = lowerKeys s := by
  induction s with
  | nil => rfl
  | cons x t ih =>
    simp only [List.map_cons, lowerKeys] at ih ⊢
    have hhead : lowerStr (if (x.1 == k) = true then (k, v) else x).1 =
        lowerStr x.1 := by
      by_cases hk : (x.1 == k) = true
      · rw [if_pos hk]
        rw [beq_iff_eq] at hk
        rw [hk]
      · rw [if_neg hk]
    rw [hhead, ih]

/-- C9: the case-insensitive uniqueness invariant is preserved by every
operation — `add` rejects case-insensitive duplicates before inserting,
`update` never changes keys, and `delete` only removes an entry — so every
store reachable from an invariant-satisfying store satisfies it. -/
theorem ciUnique_preserved (s : Store) (n p e a conf : String) (hu : CIUnique s) :
    CIUnique (addContact s n p e a).store ∧
    CIUnique (updateContact s n p e a).store ∧
    CIUnique (deleteContact s n conf).store := by
  refine ⟨?_, ?_, ?_⟩
  · rw [addContact_eq]
    split_ifs with h1 h2 h3
    · exact hu
    · exact hu
    · exact hu
    · rw [dictInsert]
      split_ifs with hany
      · rcases List.any_eq_true.mp hany with ⟨p0, hp0, hp0k⟩
        rw [beq_iff_eq] at hp0k
        exact absurd ((lowerKeys_contains_iff s _).mpr ⟨p0, hp0, by rw [hp0k]⟩) h2
      · unfold CIUnique lowerKeys
        rw [List.map_append, List.nodup_append]
        refine ⟨hu, by simp, ?_⟩
        intro x hx hx'
        simp only [List.map_cons, List.map_nil, List.mem_singleton] at hx'
        subst hx'
        exact h2 ((lowerKeys_contains_iff s _).mpr (by
          rcases List.mem_map.mp hx with ⟨p0, hp0, hpx⟩
          exact ⟨p0, hp0, hpx⟩))
  · rw [updateContact_eq]
    by_cases h1 : s.isEmpty = true
    · rw [if_pos h1]; exact hu
    · rw [if_neg h1]
      rcases hf : findByName s (trimStr n) with _ | ⟨k, c⟩
      · exact hu
      · dsimp only
        unfold CIUnique
        rw [lowerKeys_setEntry]
        exact hu
  · rw [deleteContact_eq]
    by_cases h1 : s.isEmpty = true
    · rw [if_pos h1]; exact hu
    · rw [if_neg h1]
      rcases hf : findByName s (trimStr n) with _ | ⟨k, c⟩
      · exact hu
      · dsimp only
        split_ifs with hconf
        · exact List.Nodup.sublist
            (List.Sublist.map _ (List.eraseP_sublist s)) hu
        · exact hu

/-- Closed instance of `ciUnique_preserved` on a one-element store. -/
theorem ciUnique_preserved_witness :
    CIUnique (addContact [("A", ⟨"1", "", ""⟩)] "B" "2" "" "").store ∧
    CIUnique (updateContact [("A", ⟨"1", "", ""⟩)] "B" "2" "" "").store ∧
    CIUnique (deleteContact [("A", ⟨"1", "", ""⟩)] "B" "y").store :=
  ciUnique_preserved [("A", ⟨"1", "", ""⟩)] "B" "2" "" "" "y" (by decide)

/-- C10: on an empty store, `search`, `update` and `delete` all return the
informational "no contacts" outcome immediately, for every input — in
particular an empty search query does not yield the empty-query validation
error, and no name yields the not-found error; the store stays empty and
nothing is saved. -/
theorem empty_store_guard (q n p e a conf : String) :
    searchContact [] q = .noContacts ∧
    updateContact [] n p e a = ⟨.noContacts, [], false⟩ ∧
    deleteContact [] n conf = ⟨.noContacts, [], false⟩ :=
  ⟨rfl, rfl, rfl⟩

end ContactBook
